import Mathlib

/-!
The program github-events-to-slack: the feed poller, the event classifier and the renderer

A shallow embedding of `github/github.go` (resume state, checkpoint file,
header handling, the deduplicating `Query`, the polling loop) and of
`slack/slack.go` (the classifier `ParseEvent` and the `Text` and `Attachments`
methods of the payload structs), followed by the properties established about
them.

Conventions of the embedding.

* A Go method that mutates its receiver takes the receiver first and returns
  the new receiver together with the Go results.
* A Go `error` result is an `Option String` (`none` is `nil`); a nil slice is
  the empty list.
* A Go string is a sequence of bytes; it is represented by a `String` whose
  characters stand for the bytes, so that `len` is `String.length` and a slice
  takes a range of characters. `%v` of an `int` is its decimal `toString`.
* A Go function that can panic returns an `Except String`, the panic being
  the `error` case.
* Library code (the HTTP transport, `encoding/json`, `encoding/gob`, the file
  system) is either a parameter of the function that calls it or a small model
  of the documented behaviour the program relies on; each such model says so.
-/

set_option linter.dupNamespace false
set_option autoImplicit false

namespace github

/-! ## Time and durations -/

/-- An instant of `time.Time`, counted in nanoseconds from the zero value of
`time.Time` (the instant for which `IsZero` holds). -/
abbrev Time := Int

/-- The method `t.After(u)`: the instant `t` is strictly later than `u`. -/
def After (t u : Time) : Bool := decide (u < t)

/-- The function `time.Unix(sec, nsec)`: the Unix epoch lies 62135596800 seconds after the
zero instant. -/
def Unix (sec nsec : Int) : Time := (sec + 62135596800) * 1000000000 + nsec

/-- A `time.Duration`: a signed 64-bit count of nanoseconds. -/
abbrev Duration := Int

/-- The constant `time.Second`. -/
def Second : Duration := 1000000000

/-- Two's-complement wrap-around of a 64-bit signed integer operation. -/
def wrapInt64 (x : Int) : Int := (x + 2 ^ 63) % 2 ^ 64 - 2 ^ 63

/-! ## `strconv.Atoi` -/

/-- The value of one decimal digit byte, if it is one. -/
def digitValue (c : Char) : Option Nat :=
  if '0' ≤ c ∧ c ≤ '9' then some (c.toNat - '0'.toNat) else none

/-- Accumulates decimal digits; fails on any other byte. -/
def parseDigits : List Char → Nat → Option Nat
  | [], acc => some acc
  | c :: cs, acc =>
    match digitValue c with
    | none => none
    | some d => parseDigits cs (acc * 10 + d)

/-- The function `strconv.Atoi` on a platform whose `int` has 64 bits: an optional sign
followed by at least one decimal digit, the value within the `int64` range. -/
def Atoi (s : String) : Except String Int :=
  let cs := s.toList
  let signed : Bool × List Char :=
    match cs with
    | '-' :: rest => (true, rest)
    | '+' :: rest => (false, rest)
    | _ => (false, cs)
  match signed.2 with
  | [] => .error ("strconv.Atoi: parsing " ++ s.quote ++ ": invalid syntax")
  | ds =>
    match parseDigits ds 0 with
    | none => .error ("strconv.Atoi: parsing " ++ s.quote ++ ": invalid syntax")
    | some un =>
      if signed.1 then
        if un > 2 ^ 63 then
          .error ("strconv.Atoi: parsing " ++ s.quote ++ ": value out of range")
        else .ok (-(un : Int))
      else
        if un ≥ 2 ^ 63 then
          .error ("strconv.Atoi: parsing " ++ s.quote ++ ": value out of range")
        else .ok (un : Int)

/-! ## The resume state and the poller -/

/-- The struct `state`: the conditional-request validator, the watermark and
the poll interval. -/
structure state where
  Etag : Option String
  Last : Time
  Interval : Duration
  deriving DecidableEq, Repr

/-- The struct `github`, which embeds `state`. The OAuth client is represented
by the token it carries; what the client answers is a parameter of `Query`.
The channels `Events` and `Errors` are the outputs of `Polling`. -/
structure github extends state where
  user : String
  client : String
  endpoint : String
  deriving DecidableEq, Repr

/-- The constructor `NewGithub`. -/
def NewGithub (token : String) (user : String) : github :=
  { Etag := none, Last := Unix 0 0, Interval := 60 * Second,
    user := user, client := token,
    endpoint := "https://api.github.com/users/" ++ user ++ "/received_events" }

/-! ## The checkpoint file -/

/-- A value transmitted for one field of a gob-encoded struct. -/
inductive GobValue
  | string (s : String)
  | int (i : Int)
  | time (t : Time)
  deriving DecidableEq, Repr

/-- The fields of a gob-encoded struct value that are on the wire, each with
its field number. -/
abbrev GobStruct := List (Nat × GobValue)

/-- What `gob.NewEncoder(file).Encode(&gh.state)` transmits. Model of
`encoding/gob` at the level of struct fields: pointers are flattened, and a
field whose (flattened) value is the zero value of its type is omitted, as is
a nil pointer. -/
def gobEncode (s : state) : GobStruct :=
  (match s.Etag with
    | none => []
    | some e => if e.length > 0 then [(0, GobValue.string e)] else []) ++
  (if s.Last = 0 then [] else [(1, GobValue.time s.Last)]) ++
  (if s.Interval = 0 then [] else [(2, GobValue.int s.Interval)])

/-- Stores one transmitted field into the struct being decoded. -/
def gobDecodeField (s : state) : Nat × GobValue → Except String state
  | (0, GobValue.string e) => .ok { s with Etag := some e }
  | (1, GobValue.time t) => .ok { s with Last := t }
  | (2, GobValue.int i) => .ok { s with Interval := i }
  | _ => .error "gob: type mismatch"

/-- What `gob.NewDecoder(file).Decode(&state)` does to `var state state`:
fields absent from the wire keep their zero value. -/
def gobDecode (fields : GobStruct) : Except String state :=
  fields.foldlM gobDecodeField { Etag := none, Last := 0, Interval := 0 }

/-- The content of a file: a gob stream carrying one struct value, or bytes
that are not one. -/
inductive FileData
  | gob (fields : GobStruct)
  | raw (bytes : List UInt8)
  deriving DecidableEq, Repr

/-- The part of the file system the checkpoint store touches. -/
structure FileSystem where
  files : String → Option FileData
  canCreate : String → Bool
  canOpen : String → Bool

/-- The function `os.Create`: on success the file exists and is empty. -/
def Create (fs : FileSystem) (path : String) : Except String FileSystem :=
  if fs.canCreate path then
    .ok { fs with files := fun p => if p = path then some (FileData.raw []) else fs.files p }
  else .error ("open " ++ path ++ ": permission denied")

/-- Writing a whole stream to the file created at `path`. -/
def writeFile (fs : FileSystem) (path : String) (d : FileData) : FileSystem :=
  { fs with files := fun p => if p = path then some d else fs.files p }

/-- The function `os.Open`. -/
def Open (fs : FileSystem) (path : String) : Except String FileData :=
  if fs.canOpen path then
    match fs.files path with
    | some d => .ok d
    | none => .error ("open " ++ path ++ ": no such file or directory")
  else .error ("open " ++ path ++ ": permission denied")

/-- The method `SaveState`. The result of `Encode` is discarded by the source. -/
def SaveState (gh : github) (fs : FileSystem) (path : String) : FileSystem × Option String :=
  match Create fs path with
  | .error err => (fs, some ("github.SaveState: " ++ err))
  | .ok fs1 => (writeFile fs1 path (FileData.gob (gobEncode gh.tostate)), none)

/-- The method `LoadState`. -/
def LoadState (gh : github) (fs : FileSystem) (path : String) : github × Option String :=
  match Open fs path with
  | .error _ => (gh, none)
  | .ok (FileData.raw _) => (gh, some "github.LoadState: unexpected EOF")
  | .ok (FileData.gob fields) =>
    match gobDecode fields with
    | .error err => (gh, some ("github.LoadState: " ++ err))
    | .ok st => ({ gh with tostate := st }, none)

/-! ## Envelopes -/

/-- A `json.RawMessage`. -/
abbrev RawMessage := List UInt8

/-- The anonymous struct of `Parsed.Actor`. -/
structure Actor where
  Login : String
  AvatarUrl : String
  deriving DecidableEq, Repr

/-- The anonymous struct of `Parsed.Repo`. -/
structure Repo where
  Name : String
  deriving DecidableEq, Repr

/-- The struct `Parsed`; the field `Type` is written `Type_`. -/
structure Parsed where
  Type_ : String
  Actor : Actor
  Repo : Repo
  Payload : RawMessage
  CreatedAt : Time
  Public : Bool
  deriving DecidableEq, Repr

/-- The struct `Event`, which embeds `Parsed`. -/
structure Event extends Parsed where
  Raw : RawMessage
  deriving DecidableEq, Repr

/-! ## One fetch cycle -/

/-- An `http.Header`: canonical key to list of values. -/
abbrev Header := List (String × List String)

/-- The part of an `http.Request` the poller builds. -/
structure Request where
  Method : String
  URL : String
  Hdr : Header
  deriving DecidableEq, Repr

/-- A response body, represented by what
`json.NewDecoder(resp.Body).Decode(&allEvents)` makes of it: the content of
`allEvents` after the call and the error the call returns. -/
structure Body where
  allEvents : List Event
  decodeErr : Option String
  deriving DecidableEq, Repr

/-- An empty body: nothing is decoded and the decoder reports `EOF`. -/
def emptyBody : Body := { allEvents := [], decodeErr := some "EOF" }

/-- The part of an `http.Response` the poller can see. -/
structure Response where
  StatusCode : Nat
  Hdr : Header
  Body : Body
  deriving DecidableEq, Repr

/-- The method `createRequest`. -/
def createRequest (gh : github) : Request :=
  { Method := "GET", URL := gh.endpoint,
    Hdr := match gh.Etag with
      | some etag => [("If-None-Match", [etag])]
      | none => [] }

/-- The method `updateState`. -/
def updateState (gh : github) (hdr : Header) : github × Option String :=
  let gh1 : github :=
    match hdr.lookup "Etag" with
    | some (e :: _) => { gh with Etag := some e }
    | _ => gh
  match hdr.lookup "X-Poll-Interval" with
  | some (intervalString :: _) =>
    match Atoi intervalString with
    | .error err => (gh1, some err)
    | .ok interval => ({ gh1 with Interval := wrapInt64 (interval * Second) }, none)
  | _ => (gh1, none)

/-- The body of the loop of `Query` for one envelope: the pair is the
watermark `gh.Last` and the slice `events`. -/
def emitStep (acc : Time × List Event) (event : Event) : Time × List Event :=
  if !(After event.CreatedAt acc.1) then acc
  else (event.CreatedAt, acc.2 ++ [event])

/-- One iteration of the loop of `Query` at index `i`, which reads
`allEvents[len(allEvents)-1-i]`. -/
def queryStep (allEvents : List Event) (acc : Time × List Event) (i : Nat) : Time × List Event :=
  match allEvents[allEvents.length - 1 - i]? with
  | none => acc
  | some event => emitStep acc event

/-- The loop `for i := range allEvents` of `Query`. -/
def queryLoop (allEvents : List Event) (last : Time) : Time × List Event :=
  (List.range allEvents.length).foldl (queryStep allEvents) (last, [])

/-- The method `Query`; `Do` is what `gh.client.Do` answers in this cycle. -/
def Query (gh : github) (Do : Request → Except String Response) :
    github × List Event × Option String :=
  match Do (createRequest gh) with
  | .error err => (gh, [], some err)
  | .ok resp =>
    match updateState gh resp.Hdr with
    | (gh1, some err) => (gh1, [], some err)
    | (gh1, none) =>
      let r := queryLoop resp.Body.allEvents gh1.Last
      ({ gh1 with Last := r.1 }, r.2, none)

/-- One turn of the loop of `Polling`: the triple is the poller, what has been
sent on `gh.Events` and what has been sent on `gh.Errors`. -/
def pollingStep (acc : github × List Event × List String)
    (Do : Request → Except String Response) : github × List Event × List String :=
  match Query acc.1 Do with
  | (gh1, _, some err) => (gh1, acc.2.1, acc.2.2 ++ [err])
  | (gh1, events, none) => (gh1, acc.2.1 ++ events, acc.2.2)

/-- The method `Polling`, run for as many cycles as there are transport
answers in the list. -/
def Polling (gh : github) (net : List (Request → Except String Response)) :
    github × List Event × List String :=
  net.foldl pollingStep (gh, [], [])

/-- The watermark after the loop body has run over `es` in this order. -/
def lastFrom : List Event → Time → Time
  | [], last => last
  | e :: es, last => if After e.CreatedAt last then lastFrom es e.CreatedAt else lastFrom es last

/-- The envelopes the loop body appends when run over `es` in this order. -/
def emitFrom : List Event → Time → List Event
  | [], _ => []
  | e :: es, last =>
    if After e.CreatedAt last then e :: emitFrom es e.CreatedAt else emitFrom es last

/-- What every finite run of `Polling` maintains, relative to the watermark
`start` it began with. -/
def PollingInv (start : Time) (acc : github × List Event × List String) : Prop :=
  start ≤ acc.1.Last ∧
  (∀ e ∈ acc.2.1, start < e.CreatedAt ∧ e.CreatedAt ≤ acc.1.Last) ∧
  (acc.2.1 = [] → acc.1.Last = start) ∧
  (acc.2.1 ≠ [] → ∃ e ∈ acc.2.1, e.CreatedAt = acc.1.Last)

/-- The interval hint of a header set: the first `X-Poll-Interval` value, when
there is one and `strconv.Atoi` accepts it. -/
def intervalHint (hdr : Header) : Option Int :=
  match hdr.lookup "X-Poll-Interval" with
  | some (intervalString :: _) => (Atoi intervalString).toOption
  | _ => none

end github

namespace slack

/-! ## The classifier -/

/-- The type `Parsed` of package slack, declared as `type Parsed github.Parsed`:
the conversion `Parsed(e.Parsed)` is the identity. -/
abbrev Parsed := github.Parsed

/-- The base struct `Event` of package slack, which has no fields. -/
structure Event where
  deriving DecidableEq, Repr

/-- One element of `PushEvent.Commits`. -/
structure PushCommit where
  Sha : String
  Message : String
  deriving DecidableEq, Repr

/-- The struct `PushEvent`. -/
structure PushEvent extends Event where
  Ref : String
  Commits : List PushCommit
  deriving DecidableEq, Repr

/-- The anonymous struct of the field `Comment` of the two comment events. -/
structure CommentInfo where
  HtmlUrl : String
  Body : String
  deriving DecidableEq, Repr

/-- The anonymous struct carrying only a `Number`. -/
structure NumberInfo where
  Number : Int
  deriving DecidableEq, Repr

/-- The struct `IssueCommentEvent`. -/
structure IssueCommentEvent extends Event where
  Comment : CommentInfo
  Issue : NumberInfo
  deriving DecidableEq, Repr

/-- The anonymous struct of `IssuesEvent.Issue`. -/
structure IssueInfo where
  Title : String
  HtmlUrl : String
  Number : Int
  deriving DecidableEq, Repr

/-- The struct `IssuesEvent`. -/
structure IssuesEvent extends Event where
  Action : String
  Issue : IssueInfo
  deriving DecidableEq, Repr

/-- The anonymous struct of `PullRequestEvent.PullRequest`. -/
structure PullRequestInfo where
  Title : String
  HtmlUrl : String
  Commits : Int
  Additions : Int
  Deletions : Int
  deriving DecidableEq, Repr

/-- The struct `PullRequestEvent`. -/
structure PullRequestEvent extends Event where
  Action : String
  Number : Int
  PullRequest : PullRequestInfo
  deriving DecidableEq, Repr

/-- The struct `PullRequestReviewCommentEvent`. -/
structure PullRequestReviewCommentEvent extends Event where
  Comment : CommentInfo
  PullRequest : NumberInfo
  deriving DecidableEq, Repr

/-- A non-nil value of the interface `Messager`: a pointer to one of the five
payload structs. -/
inductive Messager
  | ofPushEvent (payload : PushEvent)
  | ofIssueCommentEvent (payload : IssueCommentEvent)
  | ofIssuesEvent (payload : IssuesEvent)
  | ofPullRequestEvent (payload : PullRequestEvent)
  | ofPullRequestReviewCommentEvent (payload : PullRequestReviewCommentEvent)
  deriving DecidableEq, Repr

/-- The struct `Message`; the interface field is `none` when it is nil. -/
structure Message where
  Messager : Option Messager
  Parsed : Parsed
  deriving DecidableEq, Repr

/-- What `json.Unmarshal(e.Payload, &payload)` makes of a payload for each of
the five payload structs: the struct as the call leaves it (starting from the
zero value) and the error the call returns. -/
structure Unmarshal where
  PushEvent : github.RawMessage → PushEvent × Option String
  IssueCommentEvent : github.RawMessage → IssueCommentEvent × Option String
  IssuesEvent : github.RawMessage → IssuesEvent × Option String
  PullRequestEvent : github.RawMessage → PullRequestEvent × Option String
  PullRequestReviewCommentEvent :
    github.RawMessage → PullRequestReviewCommentEvent × Option String

/-- The function `ParseEvent`. -/
def ParseEvent (json : Unmarshal) (e : github.Event) : Message × Option String :=
  let r : Option Messager × Option String :=
    if e.Type_ = "PushEvent" then
      let d := json.PushEvent e.Payload
      (some (Messager.ofPushEvent d.1), d.2)
    else if e.Type_ = "IssueCommentEvent" then
      let d := json.IssueCommentEvent e.Payload
      (some (Messager.ofIssueCommentEvent d.1), d.2)
    else if e.Type_ = "IssuesEvent" then
      let d := json.IssuesEvent e.Payload
      (some (Messager.ofIssuesEvent d.1), d.2)
    else if e.Type_ = "PullRequestEvent" then
      let d := json.PullRequestEvent e.Payload
      (some (Messager.ofPullRequestEvent d.1), d.2)
    else if e.Type_ = "PullRequestReviewCommentEvent" then
      let d := json.PullRequestReviewCommentEvent e.Payload
      (some (Messager.ofPullRequestReviewCommentEvent d.1), d.2)
    else
      (none, some ("unknown event: " ++ e.Type_))
  ({ Messager := r.1, Parsed := e.toParsed }, r.2)

end slack

namespace github

/-- An envelope with the given type tag and creation time, every other field
at its zero value. -/
def sampleEvent (tag : String) (createdAt : Time) : Event :=
  { Type_ := tag, Actor := { Login := "", AvatarUrl := "" }, Repo := { Name := "" },
    Payload := [], CreatedAt := createdAt, Public := false, Raw := [] }

/-- A transport that answers every request with status 200, the given
headers and the given body. -/
def respondWith (hdr : Header) (body : Body) : Request → Except String Response :=
  fun _ => .ok { StatusCode := 200, Hdr := hdr, Body := body }

/-- The batch of the worked example: creation times 5, 3, 4, 2 in the order
delivered. -/
def batch5342 : List Event := [5, 3, 4, 2].map (sampleEvent "PushEvent")

/-- A transport that delivers the batch of the worked example, decoded
without error and with no headers. -/
def deliver5342 : Request → Except String Response :=
  respondWith [] { allEvents := batch5342, decodeErr := none }

/-- A poller whose watermark is the instant 2. -/
def pollerAt2 : github := { NewGithub "token" "user" with Last := 2 }

/-- A file system with no files in which every path can be created and
opened. -/
def emptyFS : FileSystem :=
  { files := fun _ => none, canCreate := fun _ => true, canOpen := fun _ => true }

/-- A poller whose validator is present and is the empty string, as
`updateState` leaves it after a response with an empty `ETag` header value. -/
def pollerEmptyEtag : github := { NewGithub "token" "user" with Etag := some "" }

/-- A poller with a validator, a watermark and an interval that differ from
the defaults. -/
def pollerSample : github :=
  { NewGithub "token" "user" with Etag := some "abc", Last := Unix 1500000000 0,
                                  Interval := 30 * Second }

/-- A body that is not JSON at all: nothing is decoded and the decoder
reports a syntax error. -/
def malformedBody : Body :=
  { allEvents := [], decodeErr := some "invalid character looking for beginning of value" }

/-- A transport that answers every request with status 304, the given headers
and no body. -/
def notModified (hdr : Header) : Request → Except String Response :=
  fun _ => .ok { StatusCode := 304, Hdr := hdr, Body := emptyBody }

end github

namespace slack

/-- A JSON decoder that leaves every payload struct at its zero value and
reports no error. -/
def zeroUnmarshal : Unmarshal :=
  { PushEvent := fun _ => ({ Ref := "", Commits := [] }, none),
    IssueCommentEvent := fun _ =>
      ({ Comment := { HtmlUrl := "", Body := "" }, Issue := { Number := 0 } }, none),
    IssuesEvent := fun _ =>
      ({ Action := "", Issue := { Title := "", HtmlUrl := "", Number := 0 } }, none),
    PullRequestEvent := fun _ =>
      ({ Action := "", Number := 0,
         PullRequest := { Title := "", HtmlUrl := "", Commits := 0, Additions := 0,
                          Deletions := 0 } }, none),
    PullRequestReviewCommentEvent := fun _ =>
      ({ Comment := { HtmlUrl := "", Body := "" }, PullRequest := { Number := 0 } }, none) }

end slack

namespace github

/-- Whether the content of a file decodes as a gob stream of a `state`. -/
def fileDecodes : FileData → Bool
  | FileData.raw _ => false
  | FileData.gob fields => (gobDecode fields).toOption.isSome

/-- A file system in which every path holds three bytes that are not a gob
stream and no path can be opened. -/
def lockedFS : FileSystem :=
  { files := fun _ => some (FileData.raw [1, 2, 3]), canCreate := fun _ => false,
    canOpen := fun _ => false }

end github

namespace strings

/-! ## The functions of package `strings` the renderer uses -/

/-- Splits a list of bytes at every occurrence of `sep`; the result is never
empty. -/
def splitBytes (sep : Char) : List Char → List (List Char)
  | [] => [[]]
  | c :: cs =>
    if c = sep then [] :: splitBytes sep cs
    else (c :: (splitBytes sep cs).headD []) :: (splitBytes sep cs).tail

/-- The function `strings.Split(s, sep)` for a separator of one byte. -/
def Split (s : String) (sep : Char) : List String :=
  (splitBytes sep s.data).map String.mk

/-- The function `strings.Join(elems, sep)`. -/
def Join : List String → String → String
  | [], _ => ""
  | [a], _ => a
  | a :: b :: rest, sep => a ++ sep ++ Join (b :: rest) sep

/-- The bytes of `Join`: the lists with `sep` between neighbours. -/
def joinBytes (sep : List Char) : List (List Char) → List Char
  | [] => []
  | [a] => a
  | a :: b :: rest => a ++ sep ++ joinBytes sep (b :: rest)

end strings

namespace slack

/-! ## The renderer -/

/-- The constant `githubBase`. -/
def githubBase : String := "https://github.com"

/-- The part of a `slack.Attachment` (package `nlopes/slack`) the renderer
sets; every other field keeps its zero value. -/
structure Attachment where
  Text : String
  MarkdownIn : List String
  deriving DecidableEq, Repr

/-- The slice expression `s[:n]`, which panics when `n` exceeds `len(s)`. -/
def sliceTo (s : String) (n : Nat) : Except String String :=
  if n ≤ s.length then .ok (String.mk (s.data.take n))
  else .error "runtime error: slice bounds out of range"

/-- The function `SlackLink`. -/
def SlackLink (url : String) (title : String) : String :=
  "<" ++ url ++ "|" ++ title ++ ">"

/-- The method `Parsed.RepoName`. -/
def RepoName (i : Parsed) : String := i.Repo.Name

/-- The method `Parsed.RepoURL`. -/
def RepoURL (i : Parsed) : String := githubBase ++ "/" ++ i.Repo.Name

/-- The method `Parsed.RepoLink`. -/
def RepoLink (i : Parsed) : String := SlackLink (RepoURL i) (RepoName i)

/-- The method `Parsed.UserName`. -/
def UserName (i : Parsed) : String := i.Actor.Login

/-- The method `Parsed.UserURL`. -/
def UserURL (i : Parsed) : String := githubBase ++ "/" ++ UserName i

/-- The method `Parsed.UserLink`. -/
def UserLink (i : Parsed) : String := SlackLink (UserURL i) (UserName i)

/-- The method `Parsed.TreeURL`. -/
def TreeURL (i : Parsed) (path : String) : String := RepoURL i ++ "/tree/" ++ path

/-- The method `Parsed.TreeLink`. -/
def TreeLink (i : Parsed) (path : String) : String := SlackLink (TreeURL i path) path

/-- The method `Event.Text` of the base struct. -/
def Event.Text (_e : Event) (_parsed : Parsed) : String := ""

/-- The method `Event.Attachments` of the base struct. -/
def Event.Attachments (_e : Event) (_parsed : Parsed) : List Attachment := []

/-- The method `PushEvent.Text`; the last element of a `Split` always exists. -/
def PushEvent.Text (p : PushEvent) (parsed : Parsed) : String :=
  let refs := strings.Split p.Ref '/'
  let ref := refs.getLastD ""
  "*" ++ UserLink parsed ++ " pushed to " ++ TreeLink parsed ref ++ " at " ++ RepoLink parsed ++ "*"

/-- The body of the loop of `PushEvent.Attachments` for one commit: the line
it appends to `commits`, or the panic of `commit.Sha[:7]`. -/
def PushEvent.commitLine (parsed : Parsed) (commit : PushCommit) : Except String String :=
  let url := githubBase ++ "/" ++ RepoName parsed ++ "/commit/" ++ commit.Sha
  let msg := (strings.Split commit.Message '\n').headD ""
  match sliceTo commit.Sha 7 with
  | .error err => .error err
  | .ok short => .ok (SlackLink url short ++ " " ++ msg)

/-- The loop `for _, commit := range p.Commits` of `PushEvent.Attachments`:
the slice `commits` it builds, or the first panic. -/
def PushEvent.commitLines (parsed : Parsed) : List PushCommit → Except String (List String)
  | [] => .ok []
  | commit :: rest =>
    match PushEvent.commitLine parsed commit with
    | .error err => .error err
    | .ok txt =>
      match PushEvent.commitLines parsed rest with
      | .error err => .error err
      | .ok txts => .ok (txt :: txts)

/-- The method `PushEvent.Attachments`. -/
def PushEvent.Attachments (p : PushEvent) (parsed : Parsed) : Except String (List Attachment) :=
  match PushEvent.commitLines parsed p.Commits with
  | .error err => .error err
  | .ok commits => .ok [{ Text := strings.Join commits "\n", MarkdownIn := ["text"] }]

/-- The method `IssueCommentEvent.Text`. -/
def IssueCommentEvent.Text (e : IssueCommentEvent) (p : Parsed) : String :=
  let issueName := RepoName p ++ "#" ++ toString e.Issue.Number
  let issueLink := SlackLink e.Comment.HtmlUrl issueName
  let body := e.Comment.Body
  let lines := strings.Split body '\n'
  let lines := if lines.length ≥ 3 then lines.take 3 else lines
  let body := strings.Join lines "\n"
  "*" ++ UserLink p ++ " commented on pull request " ++ issueLink ++ "*\n" ++ body

/-- The method `IssuesEvent.Text`. -/
def IssuesEvent.Text (e : IssuesEvent) (p : Parsed) : String :=
  let title := RepoName p ++ "#" ++ toString e.Issue.Number
  let link := SlackLink e.Issue.HtmlUrl title
  "*" ++ UserLink p ++ " " ++ e.Action ++ " issue " ++ link ++ "*\n" ++ e.Issue.Title ++ "*"

/-- The method `PullRequestEvent.Text`. -/
def PullRequestEvent.Text (e : PullRequestEvent) (p : Parsed) : String :=
  let title := RepoName p ++ "#" ++ toString e.Number
  let link := SlackLink e.PullRequest.HtmlUrl title
  "*" ++ UserLink p ++ " " ++ e.Action ++ " pull request " ++ link ++ "*\n" ++ e.PullRequest.Title

/-- The method `PullRequestEvent.Attachments`. -/
def PullRequestEvent.Attachments (e : PullRequestEvent) (_p : Parsed) : List Attachment :=
  let comN := e.PullRequest.Commits
  let addN := e.PullRequest.Additions
  let delN := e.PullRequest.Deletions
  let comT := if comN = 1 then "commit" else "commits"
  let addT := if addN = 1 then "addition" else "additions"
  let delT := if delN = 1 then "deletion" else "deletions"
  let text := "*" ++ toString comN ++ "* " ++ comT ++ " with *" ++ toString addN ++ "* " ++ addT
    ++ " and *" ++ toString delN ++ "* " ++ delT
  [{ Text := text, MarkdownIn := ["text"] }]

/-- The method `PullRequestReviewCommentEvent.Text`. -/
def PullRequestReviewCommentEvent.Text (e : PullRequestReviewCommentEvent) (p : Parsed) :
    String :=
  let title := RepoName p ++ "#" ++ toString e.PullRequest.Number
  let link := SlackLink e.Comment.HtmlUrl title
  "*" ++ UserLink p ++ " commented on pull request " ++ link ++ "*\n" ++ e.Comment.Body

/-- The call `msg.Text(msg.Parsed)` through the interface: each payload struct
answers with its own method. -/
def Messager.Text : Messager → Parsed → String
  | .ofPushEvent payload, p => payload.Text p
  | .ofIssueCommentEvent payload, p => payload.Text p
  | .ofIssuesEvent payload, p => payload.Text p
  | .ofPullRequestEvent payload, p => payload.Text p
  | .ofPullRequestReviewCommentEvent payload, p => payload.Text p

/-- The call `msg.Messager.Attachments(msg.Parsed)` through the interface: the
structs without a method of their own answer with the one of the embedded
`Event`. -/
def Messager.Attachments : Messager → Parsed → Except String (List Attachment)
  | .ofPushEvent payload, p => payload.Attachments p
  | .ofIssueCommentEvent payload, p => .ok (payload.toEvent.Attachments p)
  | .ofIssuesEvent payload, p => .ok (payload.toEvent.Attachments p)
  | .ofPullRequestEvent payload, p => .ok (payload.Attachments p)
  | .ofPullRequestReviewCommentEvent payload, p => .ok (payload.toEvent.Attachments p)

/-- The line of the attachment for one commit whose identifier has at least 7
bytes: the link to the commit, labelled with the first 7 bytes of the
identifier, a space, and the first line of the commit message. -/
def commitText (parsed : Parsed) (commit : PushCommit) : String :=
  SlackLink (githubBase ++ "/" ++ RepoName parsed ++ "/commit/" ++ commit.Sha)
      (String.mk (commit.Sha.data.take 7))
    ++ " " ++ (strings.Split commit.Message '\n').headD ""

/-! ## Sample inputs -/

/-- The envelope fields of an event by `octocat` on `octo/repo`. -/
def sampleParsed : Parsed :=
  { Type_ := "PushEvent", Actor := { Login := "octocat", AvatarUrl := "" },
    Repo := { Name := "octo/repo" }, Payload := [], CreatedAt := 0, Public := true }

/-- A push of three commits with full identifiers; the second message has two
lines. -/
def samplePush : PushEvent :=
  { Ref := "refs/heads/master",
    Commits := [{ Sha := "0123456789abcdef0123456789abcdef01234567", Message := "first" },
                { Sha := "89abcdef0123456789abcdef0123456789abcdef", Message := "second\nmore" },
                { Sha := "fedcba9876543210fedcba9876543210fedcba98", Message := "third" }] }

/-- The attachment text of `samplePush` on `sampleParsed`. -/
def samplePushText : String :=
  "<https://github.com/octo/repo/commit/0123456789abcdef0123456789abcdef01234567|0123456> first\n"
    ++ "<https://github.com/octo/repo/commit/89abcdef0123456789abcdef0123456789abcdef|89abcde> second\n"
    ++ "<https://github.com/octo/repo/commit/fedcba9876543210fedcba9876543210fedcba98|fedcba9> third"

/-- A push whose only commit has no identifier: the field `sha` was absent from
the payload and decoded as the empty string. -/
def pushNoSha : PushEvent :=
  { Ref := "refs/heads/master", Commits := [{ Sha := "", Message := "fix" }] }

/-- A push whose only commit has an identifier of six bytes. -/
def pushShortSha : PushEvent :=
  { Ref := "refs/heads/master", Commits := [{ Sha := "abc123", Message := "fix" }] }

/-- A JSON decoder that accepts every push payload and decodes it as
`pushNoSha`. -/
def unmarshalNoSha : Unmarshal :=
  { zeroUnmarshal with PushEvent := fun _ => (pushNoSha, none) }

/-- A pull request event with 1 commit, 0 additions and 5 deletions. -/
def samplePullRequest : PullRequestEvent :=
  { Action := "opened", Number := 12,
    PullRequest := { Title := "Bug", HtmlUrl := "https://github.com/octo/repo/pull/12",
                     Commits := 1, Additions := 0, Deletions := 5 } }

/-- An issue event with the same action, number, link and title as
`samplePullRequest`. -/
def sampleIssues : IssuesEvent :=
  { Action := "opened",
    Issue := { Title := "Bug", HtmlUrl := "https://github.com/octo/repo/pull/12",
               Number := 12 } }

/-- A review comment whose body has four lines. -/
def sampleReviewComment : PullRequestReviewCommentEvent :=
  { Comment := { HtmlUrl := "https://github.com/octo/repo/pull/12#r1", Body := "a\nb\nc\nd" },
    PullRequest := { Number := 12 } }

/-- An issue comment with the same link, number and four-line body as
`sampleReviewComment`. -/
def sampleIssueComment : IssueCommentEvent :=
  { Comment := { HtmlUrl := "https://github.com/octo/repo/pull/12#r1", Body := "a\nb\nc\nd" },
    Issue := { Number := 12 } }

end slack

/-! # Properties -/

namespace github

/-! ## The loop of `Query` -/

theorem foldl_emitStep (es : List Event) (last : Time) (out : List Event) :
    es.foldl emitStep (last, out) = (lastFrom es last, out ++ emitFrom es last) := by
  induction es generalizing last out with
  | nil => simp [lastFrom, emitFrom]
  | cons e es ih =>
    by_cases h : After e.CreatedAt last = true
    · simp [List.foldl_cons, emitStep, lastFrom, emitFrom, h, ih]
    · simp [List.foldl_cons, emitStep, lastFrom, emitFrom, h, ih]

theorem range_index_reverse (l : List Event) :
    (List.range l.length).map (fun i => l[l.length - 1 - i]?) = l.reverse.map some := by
  apply List.ext_getElem?
  intro i
  by_cases h : i < l.length
  · have h3 : l.length - 1 - i < l.length := by omega
    rw [List.getElem?_map, List.getElem?_map, List.getElem?_range h, List.getElem?_reverse h,
      List.getElem?_eq_getElem h3]
    simp only [Option.map_some', List.getElem?_eq_getElem h3]
  · have h1 : l.length ≤ i := Nat.le_of_not_lt h
    rw [List.getElem?_eq_none (by simpa using h1), List.getElem?_eq_none (by simpa using h1)]

theorem queryLoop_eq (allEvents : List Event) (last : Time) :
    queryLoop allEvents last
      = (lastFrom allEvents.reverse last, emitFrom allEvents.reverse last) := by
  have h : ∀ (idx : List Nat) (acc : Time × List Event),
      idx.foldl (queryStep allEvents) acc
        = (idx.map (fun i => allEvents[allEvents.length - 1 - i]?)).foldl
            (fun a o => match o with | none => a | some event => emitStep a event) acc := by
    intro idx
    induction idx with
    | nil => intro acc; rfl
    | cons i idx ih => intro acc; simp only [List.foldl_cons, List.map_cons, ih]; rfl
  have h2 : ∀ (es : List Event) (acc : Time × List Event),
      (es.map some).foldl
          (fun a o => match o with | none => a | some event => emitStep a event) acc
        = es.foldl emitStep acc := by
    intro es
    induction es with
    | nil => intro acc; rfl
    | cons e es ih => intro acc; simp only [List.foldl_cons, List.map_cons, ih]
  unfold queryLoop
  rw [h, range_index_reverse, h2, foldl_emitStep]
  simp

theorem After_iff (t u : Time) : After t u = true ↔ u < t := by
  simp [After]

theorem le_lastFrom (es : List Event) (last : Time) : last ≤ lastFrom es last := by
  induction es generalizing last with
  | nil => simp [lastFrom]
  | cons e es ih =>
    by_cases h : After e.CreatedAt last = true
    · have h1 := (After_iff _ _).1 h
      have h2 := ih e.CreatedAt
      simp only [lastFrom, h, if_true]
      exact le_trans (le_of_lt h1) h2
    · simp only [lastFrom, h]
      exact ih last

theorem emitFrom_bounds (es : List Event) (last : Time) :
    ∀ e ∈ emitFrom es last, last < e.CreatedAt ∧ e.CreatedAt ≤ lastFrom es last := by
  induction es generalizing last with
  | nil => simp [emitFrom]
  | cons x es ih =>
    by_cases h : After x.CreatedAt last = true
    · have h1 := (After_iff _ _).1 h
      simp only [emitFrom, lastFrom, h, if_true, List.mem_cons]
      intro e he
      rcases he with rfl | he
      · exact ⟨h1, le_lastFrom es _⟩
      · have h2 := ih x.CreatedAt e he
        exact ⟨lt_trans h1 h2.1, h2.2⟩
    · simp only [emitFrom, lastFrom, h]
      exact ih last

theorem emitFrom_pairwise (es : List Event) (last : Time) :
    List.Pairwise (fun a b : Event => a.CreatedAt < b.CreatedAt) (emitFrom es last) := by
  induction es generalizing last with
  | nil => simp [emitFrom]
  | cons x es ih =>
    by_cases h : After x.CreatedAt last = true
    · simp only [emitFrom, h, if_true, List.pairwise_cons]
      exact ⟨fun e he => (emitFrom_bounds es x.CreatedAt e he).1, ih x.CreatedAt⟩
    · simp only [emitFrom, h]
      exact ih last

theorem lastFrom_of_emitFrom_nil (es : List Event) (last : Time)
    (h : emitFrom es last = []) : lastFrom es last = last := by
  induction es generalizing last with
  | nil => simp [lastFrom]
  | cons x es ih =>
    by_cases hx : After x.CreatedAt last = true
    · simp [emitFrom, hx] at h
    · simp only [emitFrom, hx] at h
      simp only [lastFrom, hx]
      exact ih last h

theorem lastFrom_mem (es : List Event) (last : Time) (h : emitFrom es last ≠ []) :
    ∃ e ∈ emitFrom es last, e.CreatedAt = lastFrom es last := by
  induction es generalizing last with
  | nil => simp [emitFrom] at h
  | cons x es ih =>
    by_cases hx : After x.CreatedAt last = true
    · simp only [emitFrom, lastFrom, hx, if_true, List.mem_cons]
      by_cases hn : emitFrom es x.CreatedAt = []
      · exact ⟨x, Or.inl rfl, (lastFrom_of_emitFrom_nil es _ hn).symm⟩
      · obtain ⟨e, he, heq⟩ := ih x.CreatedAt hn
        exact ⟨e, Or.inr he, heq⟩
    · simp only [emitFrom, hx] at h
      simp only [emitFrom, lastFrom, hx]
      exact ih last h

theorem le_lastFrom_of_mem (es : List Event) (last : Time) :
    ∀ e ∈ es, e.CreatedAt ≤ lastFrom es last := by
  induction es generalizing last with
  | nil => simp
  | cons x es ih =>
    intro e he
    by_cases hx : After x.CreatedAt last = true
    · simp only [lastFrom, hx, if_true]
      rcases List.mem_cons.1 he with rfl | he
      · exact le_lastFrom es _
      · exact ih _ e he
    · simp only [lastFrom, hx]
      rcases List.mem_cons.1 he with rfl | he
      · have h1 : ¬ last < e.CreatedAt := fun hlt => hx ((After_iff _ _).2 hlt)
        have h2 := le_lastFrom es last
        exact le_trans (not_lt.1 h1) h2
      · exact ih _ e he

/-! ## `updateState` and `Query` -/

theorem updateState_Last (gh : github) (hdr : Header) : (updateState gh hdr).1.Last = gh.Last := by
  unfold updateState
  split <;> split <;> (try split) <;> rfl

theorem updateState_Etag_eq (gh : github) (hdr : Header) :
    (updateState gh hdr).1.Etag
      = (match hdr.lookup "Etag" with
          | some (e :: _) => some e
          | _ => gh.Etag) := by
  unfold updateState
  split <;> split <;> (try split) <;> simp_all

/-- The three ways a call of `Query` can end. -/
theorem Query_cases (gh : github) (Do : Request → Except String Response) :
    (∃ err, Do (createRequest gh) = .error err ∧ Query gh Do = (gh, [], some err)) ∨
    (∃ resp err, Do (createRequest gh) = .ok resp ∧ (updateState gh resp.Hdr).2 = some err ∧
      Query gh Do = ((updateState gh resp.Hdr).1, [], some err)) ∨
    (∃ resp, Do (createRequest gh) = .ok resp ∧ (updateState gh resp.Hdr).2 = none ∧
      Query gh Do =
        ({ (updateState gh resp.Hdr).1 with
            Last := lastFrom resp.Body.allEvents.reverse gh.Last },
          emitFrom resp.Body.allEvents.reverse gh.Last, none)) := by
  unfold Query
  cases hdo : Do (createRequest gh) with
  | error err => exact Or.inl ⟨err, rfl, rfl⟩
  | ok resp =>
    cases hu : updateState gh resp.Hdr with
    | mk gh1 oerr =>
      have hl : gh1.Last = gh.Last := by
        have := updateState_Last gh resp.Hdr
        rw [hu] at this
        exact this
      cases oerr with
      | some err => refine Or.inr (Or.inl ⟨resp, err, rfl, ?_, ?_⟩) <;> simp [hu]
      | none => refine Or.inr (Or.inr ⟨resp, rfl, ?_, ?_⟩) <;> simp [hu, queryLoop_eq, hl]

theorem Query_Last_le (gh : github) (Do : Request → Except String Response) :
    gh.Last ≤ (Query gh Do).1.Last := by
  rcases Query_cases gh Do with ⟨err, _, h⟩ | ⟨resp, err, _, _, h⟩ | ⟨resp, _, _, h⟩
  · rw [h]
  · rw [h]; exact le_of_eq (updateState_Last gh resp.Hdr).symm
  · rw [h]; exact le_lastFrom _ _

theorem Query_emitted_bounds (gh : github) (Do : Request → Except String Response) :
    ∀ e ∈ (Query gh Do).2.1, gh.Last < e.CreatedAt ∧ e.CreatedAt ≤ (Query gh Do).1.Last := by
  rcases Query_cases gh Do with ⟨err, _, h⟩ | ⟨resp, err, _, _, h⟩ | ⟨resp, _, _, h⟩
  · rw [h]; simp
  · rw [h]; simp
  · rw [h]; exact emitFrom_bounds _ _

theorem Query_emitted_pairwise (gh : github) (Do : Request → Except String Response) :
    List.Pairwise (fun a b : Event => a.CreatedAt < b.CreatedAt) (Query gh Do).2.1 := by
  rcases Query_cases gh Do with ⟨err, _, h⟩ | ⟨resp, err, _, _, h⟩ | ⟨resp, _, _, h⟩
  · rw [h]; simp
  · rw [h]; simp
  · rw [h]; exact emitFrom_pairwise _ _

theorem Query_Last_of_nil (gh : github) (Do : Request → Except String Response)
    (hn : (Query gh Do).2.1 = []) : (Query gh Do).1.Last = gh.Last := by
  rcases Query_cases gh Do with ⟨err, _, h⟩ | ⟨resp, err, _, _, h⟩ | ⟨resp, _, _, h⟩
  · rw [h]
  · rw [h]; exact updateState_Last gh resp.Hdr
  · rw [h] at hn ⊢; exact lastFrom_of_emitFrom_nil _ _ hn

theorem Query_Last_mem (gh : github) (Do : Request → Except String Response)
    (hn : (Query gh Do).2.1 ≠ []) : ∃ e ∈ (Query gh Do).2.1, e.CreatedAt = (Query gh Do).1.Last := by
  rcases Query_cases gh Do with ⟨err, _, h⟩ | ⟨resp, err, _, _, h⟩ | ⟨resp, _, _, h⟩
  · rw [h] at hn; simp at hn
  · rw [h] at hn; simp at hn
  · rw [h] at hn ⊢; exact lastFrom_mem _ _ hn

theorem Query_events_of_err (gh : github) (Do : Request → Except String Response)
    (err : String) (he : (Query gh Do).2.2 = some err) : (Query gh Do).2.1 = [] := by
  rcases Query_cases gh Do with ⟨err, _, h⟩ | ⟨resp, err, _, _, h⟩ | ⟨resp, _, _, h⟩
  · rw [h]
  · rw [h]
  · rw [h] at he; simp at he

/-! ## `Polling` -/

theorem pollingStep_eq (acc : github × List Event × List String)
    (Do : Request → Except String Response) :
    (pollingStep acc Do).1 = (Query acc.1 Do).1 ∧
    (pollingStep acc Do).2.1 = acc.2.1 ++ (Query acc.1 Do).2.1 := by
  have hq := Query_events_of_err acc.1 Do
  unfold pollingStep
  rcases hQ : Query acc.1 Do with ⟨gh1, events, oerr⟩
  rw [hQ] at hq
  cases oerr with
  | none => simp
  | some err =>
    have hnil : events = [] := hq err rfl
    simp [hnil]

theorem Polling_snoc (gh : github) (net : List (Request → Except String Response))
    (Do : Request → Except String Response) :
    Polling gh (net ++ [Do]) = pollingStep (Polling gh net) Do := by
  simp [Polling, List.foldl_append]

theorem pollingStep_inv (start : Time) (acc : github × List Event × List String)
    (Do : Request → Except String Response) (h : PollingInv start acc) :
    PollingInv start (pollingStep acc Do) := by
  obtain ⟨h1, h2, h3, h4⟩ := h
  obtain ⟨e1, e2⟩ := pollingStep_eq acc Do
  have q1 := Query_Last_le acc.1 Do
  have q2 := Query_emitted_bounds acc.1 Do
  unfold PollingInv
  rw [e1, e2]
  refine ⟨le_trans h1 q1, ?_, ?_, ?_⟩
  · intro e he
    rcases List.mem_append.1 he with he | he
    · exact ⟨(h2 e he).1, le_trans (h2 e he).2 q1⟩
    · exact ⟨lt_of_le_of_lt h1 (q2 e he).1, (q2 e he).2⟩
  · intro hn
    obtain ⟨hn1, hn2⟩ := List.append_eq_nil.1 hn
    rw [Query_Last_of_nil acc.1 Do hn2]
    exact h3 hn1
  · intro _
    by_cases hq : (Query acc.1 Do).2.1 = []
    · by_cases ha : acc.2.1 = []
      · exact absurd (by rw [ha, hq]; rfl) ‹acc.2.1 ++ (Query acc.1 Do).2.1 ≠ []›
      · obtain ⟨e, he, heq⟩ := h4 ha
        exact ⟨e, List.mem_append.2 (Or.inl he), by rw [Query_Last_of_nil acc.1 Do hq]; exact heq⟩
    · obtain ⟨e, he, heq⟩ := Query_Last_mem acc.1 Do hq
      exact ⟨e, List.mem_append.2 (Or.inr he), heq⟩

theorem Polling_inv (gh : github) (net : List (Request → Except String Response)) :
    PollingInv gh.Last (Polling gh net) := by
  induction net using List.reverseRecOn with
  | nil => simp [Polling, PollingInv]
  | append_singleton net Do ih =>
    rw [Polling_snoc]
    exact pollingStep_inv _ _ Do ih

/-! ## The claims about deduplication and the watermark -/

/-- C1, as stated: for the batch delivered as 5, 3, 4, 2 and the starting
watermark 2, `Query` does not emit the envelopes with creation times 3, 4, 5. -/
theorem Query_batch5342_not_345 :
    ¬ ((Query pollerAt2 deliver5342).2.1.map (fun e : Event => e.CreatedAt)
        = ([3, 4, 5] : List Time)) := by
  decide

/-- C1, amended: for the batch delivered as 5, 3, 4, 2 and the starting
watermark 2, `Query` succeeds and emits exactly the envelopes with creation
times 4 and 5, in that order, and leaves the watermark at 5. Walking the batch
from its end, 2 is not after the watermark, 4 is emitted, 3 is not after the
watermark 4, and 5 is emitted. -/
theorem Query_batch5342_emits_45 :
    Query pollerAt2 deliver5342
      = (({ pollerAt2 with Last := 5 } : github),
          [sampleEvent "PushEvent" 4, sampleEvent "PushEvent" 5], (none : Option String)) := by
  decide

/-- C2: every call of `Query` leaves the watermark at least where it was, and
after any number of polling cycles from any starting state the watermark is an
upper bound of the creation times of all envelopes emitted so far and is
attained by one of them, or is the starting watermark when none has been
emitted. -/
theorem Polling_watermark_is_max_emitted (gh : github)
    (net : List (Request → Except String Response)) (Do : Request → Except String Response) :
    gh.Last ≤ (Query gh Do).1.Last ∧
    (Polling gh net).1.Last ≤ (Polling gh (net ++ [Do])).1.Last ∧
    (∀ e ∈ (Polling gh net).2.1, e.CreatedAt ≤ (Polling gh net).1.Last) ∧
    (((Polling gh net).2.1 = [] ∧ (Polling gh net).1.Last = gh.Last) ∨
      ((Polling gh net).2.1 ≠ [] ∧
        ∃ e ∈ (Polling gh net).2.1, e.CreatedAt = (Polling gh net).1.Last)) := by
  obtain ⟨_, h2, h3, h4⟩ := Polling_inv gh net
  refine ⟨Query_Last_le gh Do, ?_, fun e he => (h2 e he).2, ?_⟩
  · rw [Polling_snoc, (pollingStep_eq _ Do).1]
    exact Query_Last_le _ Do
  · by_cases hn : (Polling gh net).2.1 = []
    · exact Or.inl ⟨hn, h3 hn⟩
    · exact Or.inr ⟨hn, h4 hn⟩

/-- C3: for every state and every answer of the transport, the envelopes
`Query` emits are in order of creation time (an earlier one is never created
after a later one; in fact the times strictly increase), and each was created
strictly after the watermark the call started with. -/
theorem Query_emitted_ordered (gh : github) (Do : Request → Except String Response) :
    List.Pairwise (fun a b : Event => a.CreatedAt ≤ b.CreatedAt) (Query gh Do).2.1 ∧
    List.Pairwise (fun a b : Event => a.CreatedAt < b.CreatedAt) (Query gh Do).2.1 ∧
    (∀ e ∈ (Query gh Do).2.1, gh.Last < e.CreatedAt) := by
  refine ⟨?_, Query_emitted_pairwise gh Do, fun e he => (Query_emitted_bounds gh Do e he).1⟩
  exact (Query_emitted_pairwise gh Do).imp (fun h => le_of_lt h)

/-! ## The checkpoint store -/

theorem String_length_pos_of_ne_empty (e : String) (h : e ≠ "") : e.length > 0 := by
  cases e with
  | mk data =>
    cases data with
    | nil => exact absurd rfl h
    | cons c cs => simp [String.length]

theorem gobDecode_gobEncode (s : state) (he : s.Etag ≠ some "") :
    gobDecode (gobEncode s) = .ok s := by
  obtain ⟨etag, last, interval⟩ := s
  have hE : ∀ e : String, etag = some e → e.length > 0 := by
    intro e hs
    apply String_length_pos_of_ne_empty
    intro hemp
    apply he
    simp [hs, hemp]
  cases etag with
  | none =>
    by_cases hl : last = 0 <;> by_cases hi : interval = 0 <;>
      simp [gobEncode, gobDecode, gobDecodeField, hl, hi, List.foldlM, bind, Except.bind, pure,
        Except.pure]
  | some e =>
    have hpos := hE e rfl
    by_cases hl : last = 0 <;> by_cases hi : interval = 0 <;>
      simp [gobEncode, gobDecode, gobDecodeField, hl, hi, hpos, List.foldlM, bind, Except.bind,
        pure, Except.pure]

theorem LoadState_SaveState (gh fresh : github) (fs : FileSystem) (path : String)
    (hc : fs.canCreate path = true) (ho : fs.canOpen path = true) (he : gh.Etag ≠ some "") :
    (SaveState gh fs path).2 = none ∧
    LoadState fresh (SaveState gh fs path).1 path = ({ fresh with tostate := gh.tostate }, none) := by
  simp [SaveState, Create, hc, writeFile, LoadState, Open, ho, gobDecode_gobEncode gh.tostate he]

/-- C4, as stated: a state whose validator is present and empty is not
reproduced by `SaveState` followed by `LoadState` into a fresh poller, although
both calls succeed: the validator comes back absent. -/
theorem SaveState_LoadState_empty_Etag :
    (SaveState pollerEmptyEtag emptyFS ".state").2 = none ∧
    (LoadState (NewGithub "token" "user")
      (SaveState pollerEmptyEtag emptyFS ".state").1 ".state").2 = none ∧
    (LoadState (NewGithub "token" "user")
      (SaveState pollerEmptyEtag emptyFS ".state").1 ".state").1.Etag = none ∧
    ¬ ((LoadState (NewGithub "token" "user")
      (SaveState pollerEmptyEtag emptyFS ".state").1 ".state").1.tostate
        = pollerEmptyEtag.tostate) := by
  decide

/-- C4, amended: for every state whose validator is absent or a non-empty
string (any watermark, any interval) and every path that can be created and
opened, `SaveState` succeeds and `LoadState` from the same path into a fresh
poller succeeds and yields a state equal to the saved one in `Etag`, `Last`
and `Interval`. -/
theorem SaveState_LoadState_roundtrip (gh : github) (fs : FileSystem)
    (path token user : String)
    (hc : fs.canCreate path = true) (ho : fs.canOpen path = true) (he : gh.Etag ≠ some "") :
    (SaveState gh fs path).2 = none ∧
    (LoadState (NewGithub token user) (SaveState gh fs path).1 path).2 = none ∧
    (LoadState (NewGithub token user) (SaveState gh fs path).1 path).1.tostate = gh.tostate ∧
    (LoadState (NewGithub token user) (SaveState gh fs path).1 path).1.Etag = gh.Etag ∧
    (LoadState (NewGithub token user) (SaveState gh fs path).1 path).1.Last = gh.Last ∧
    (LoadState (NewGithub token user) (SaveState gh fs path).1 path).1.Interval = gh.Interval := by
  obtain ⟨h1, h2⟩ := LoadState_SaveState gh (NewGithub token user) fs path hc ho he
  rw [h2]
  exact ⟨h1, rfl, rfl, rfl, rfl, rfl⟩

/-- Witness for C4: the round trip at a state with a validator, and at the
default state, whose validator is absent. -/
theorem SaveState_LoadState_roundtrip_witness :
    ((LoadState (NewGithub "t" "u") (SaveState pollerSample emptyFS ".state").1 ".state").1.tostate
      = pollerSample.tostate) ∧
    ((LoadState (NewGithub "t" "u")
        (SaveState (NewGithub "token" "user") emptyFS ".state").1 ".state").1.tostate
      = (NewGithub "token" "user").tostate) :=
  ⟨(SaveState_LoadState_roundtrip pollerSample emptyFS ".state" "t" "u" rfl rfl
      (by decide)).2.2.1,
   (SaveState_LoadState_roundtrip (NewGithub "token" "user") emptyFS ".state" "t" "u" rfl rfl
      (by decide)).2.2.1⟩

/-! ## Headers: the interval and the validator -/

theorem etagStep_Interval (hdr : Header) (g : github) :
    (match hdr.lookup "Etag" with
      | some (e :: _) => ({ g with Etag := some e } : github)
      | _ => g).Interval = g.Interval := by
  split <;> rfl

theorem updateState_Interval_eq (gh : github) (hdr : Header) :
    (updateState gh hdr).1.Interval
      = (match intervalHint hdr with
          | some n => wrapInt64 (n * Second)
          | none => gh.Interval) := by
  have hI := etagStep_Interval hdr gh
  unfold updateState intervalHint
  cases hx : List.lookup "X-Poll-Interval" hdr with
  | none => simpa using hI
  | some vs =>
    cases vs with
    | nil => simpa using hI
    | cons v rest =>
      cases ha : Atoi v with
      | error err => simpa [Except.toOption, ha] using hI
      | ok n => simp [Except.toOption, ha]

theorem updateState_err_eq (gh : github) (hdr : Header) :
    (updateState gh hdr).2
      = (match hdr.lookup "X-Poll-Interval" with
          | some (s :: _) =>
            (match Atoi s with
              | .error err => some err
              | .ok _ => none)
          | _ => none) := by
  unfold updateState
  cases hx : List.lookup "X-Poll-Interval" hdr with
  | none => simp
  | some vs =>
    cases vs with
    | nil => simp
    | cons v rest =>
      cases ha : Atoi v with
      | error err => simp [ha]
      | ok n => simp [ha]

theorem wrapInt64_seconds_pos (n : Int) (h1 : 0 < n) (h2 : n ≤ 9223372036) :
    0 < wrapInt64 (n * Second) := by
  unfold wrapInt64 Second
  have hmod : (n * 1000000000 + 2 ^ 63) % 2 ^ 64 = n * 1000000000 + 2 ^ 63 :=
    Int.emod_eq_of_lt (by omega) (by omega)
  rw [hmod]
  omega

theorem Query_of_ok (gh : github) (Do : Request → Except String Response) (resp : Response)
    (hdo : Do (createRequest gh) = .ok resp) :
    (Query gh Do).1.Etag = (updateState gh resp.Hdr).1.Etag ∧
    (Query gh Do).1.Interval = (updateState gh resp.Hdr).1.Interval ∧
    (Query gh Do).2.2 = (updateState gh resp.Hdr).2 ∧
    ((updateState gh resp.Hdr).2 = none →
      (Query gh Do).1.Last = lastFrom resp.Body.allEvents.reverse gh.Last ∧
      (Query gh Do).2.1 = emitFrom resp.Body.allEvents.reverse gh.Last) := by
  rcases Query_cases gh Do with ⟨err, hd, _⟩ | ⟨r, err, hd, hu, h⟩ | ⟨r, hd, hu, h⟩
  · rw [hdo] at hd; cases hd
  · rw [hdo] at hd
    cases hd
    rw [h, hu]
    simp
  · rw [hdo] at hd
    cases hd
    rw [h, hu]
    simp

theorem Query_of_error (gh : github) (Do : Request → Except String Response) (err : String)
    (hdo : Do (createRequest gh) = .error err) : Query gh Do = (gh, [], some err) := by
  unfold Query
  rw [hdo]

/-- C5, as stated: from the default state, whose interval is the positive
60 seconds, the header `X-Poll-Interval: 0` is accepted by `updateState` and by
`Query`, and replaces the interval by one that is not positive; likewise `-5`,
and likewise `9223372037`, whose nanosecond count wraps around. -/
theorem updateState_Interval_zero_hint :
    0 < (NewGithub "token" "user").Interval ∧
    (updateState (NewGithub "token" "user") [("X-Poll-Interval", ["0"])]).2 = none ∧
    ¬ (0 < (updateState (NewGithub "token" "user") [("X-Poll-Interval", ["0"])]).1.Interval) ∧
    ¬ (0 < (Query (NewGithub "token" "user")
          (respondWith [("X-Poll-Interval", ["0"])] emptyBody)).1.Interval) ∧
    (updateState (NewGithub "token" "user") [("X-Poll-Interval", ["-5"])]).1.Interval
      = -5000000000 ∧
    (updateState (NewGithub "token" "user") [("X-Poll-Interval", ["9223372037"])]).1.Interval
      = -9223372036709551616 := by
  decide

/-- C5, amended: the interval after `updateState` is the stored one unless the
first `X-Poll-Interval` value parses as an integer (of any sign), in which
case it is that count times one second in 64-bit arithmetic. Hence, for every
state whose interval is positive and every header set whose hint, if it
parses, lies between 1 and 9223372036 seconds, the interval after
`updateState`, and after a `Query` whose response carries these headers, is
positive. -/
theorem updateState_Interval_pos (gh : github) (hdr : Header)
    (Do : Request → Except String Response)
    (hpos : 0 < gh.Interval)
    (hhint : ∀ n, intervalHint hdr = some n → 0 < n ∧ n ≤ 9223372036)
    (hDo : ∀ resp, Do (createRequest gh) = .ok resp → resp.Hdr = hdr) :
    (updateState gh hdr).1.Interval
        = (match intervalHint hdr with
            | some n => wrapInt64 (n * Second)
            | none => gh.Interval) ∧
    0 < (updateState gh hdr).1.Interval ∧
    0 < (Query gh Do).1.Interval := by
  have hu : 0 < (updateState gh hdr).1.Interval := by
    rw [updateState_Interval_eq]
    cases hh : intervalHint hdr with
    | none => exact hpos
    | some n => exact wrapInt64_seconds_pos n (hhint n hh).1 (hhint n hh).2
  refine ⟨updateState_Interval_eq gh hdr, hu, ?_⟩
  cases hdo : Do (createRequest gh) with
  | error err => rw [Query_of_error gh Do err hdo]; exact hpos
  | ok resp =>
    rw [(Query_of_ok gh Do resp hdo).2.1, hDo resp hdo]
    exact hu

theorem intervalHint_30 : intervalHint [("X-Poll-Interval", ["30"])] = some 30 := by
  decide

/-- Witness for C5: the default state and the hint of 30 seconds. -/
theorem updateState_Interval_pos_witness :
    0 < (updateState (NewGithub "token" "user") [("X-Poll-Interval", ["30"])]).1.Interval ∧
    0 < (Query (NewGithub "token" "user")
          (respondWith [("X-Poll-Interval", ["30"])] emptyBody)).1.Interval :=
  (updateState_Interval_pos (NewGithub "token" "user") [("X-Poll-Interval", ["30"])]
    (respondWith [("X-Poll-Interval", ["30"])] emptyBody)
    (by decide)
    (by
      intro n hn
      rw [intervalHint_30] at hn
      cases hn
      decide)
    (by
      intro resp hresp
      cases hresp
      rfl)).2

/-- C6, as stated: from a state with validator `abc`, a response with the
header `Etag: v2` and a body that is not JSON makes `Query` report no error
and replace the validator; the claim that it reports an error and leaves the
validator as it was fails. -/
theorem Query_malformed_body_no_error :
    malformedBody.decodeErr.isSome = true ∧
    (Query pollerSample (respondWith [("Etag", ["v2"])] malformedBody)).2.2 = none ∧
    (Query pollerSample (respondWith [("Etag", ["v2"])] malformedBody)).1.Etag = some "v2" ∧
    ¬ ((Query pollerSample (respondWith [("Etag", ["v2"])] malformedBody)).2.2.isSome = true ∧
        (Query pollerSample (respondWith [("Etag", ["v2"])] malformedBody)).2.1 = [] ∧
        (Query pollerSample (respondWith [("Etag", ["v2"])] malformedBody)).1.Last
          = pollerSample.Last ∧
        (Query pollerSample (respondWith [("Etag", ["v2"])] malformedBody)).1.Etag
          = pollerSample.Etag) := by
  decide

/-- C6, amended: for every state and every response whose body cannot be
decoded and yields no envelope, `Query` emits no envelopes and leaves the
watermark equal to its value before the cycle; the decode failure is not
reported (the error `Query` returns is the one of `updateState`, about the
interval hint), and the validator is the first `Etag` header value of the
response when there is one and the stored validator otherwise. -/
theorem Query_undecodable_body (gh : github) (Do : Request → Except String Response)
    (resp : Response) (hdo : Do (createRequest gh) = .ok resp)
    (_herr : resp.Body.decodeErr.isSome = true) (hnil : resp.Body.allEvents = []) :
    (Query gh Do).2.1 = [] ∧
    (Query gh Do).1.Last = gh.Last ∧
    (Query gh Do).2.2 = (updateState gh resp.Hdr).2 ∧
    (Query gh Do).1.Etag
      = (match resp.Hdr.lookup "Etag" with
          | some (e :: _) => some e
          | _ => gh.Etag) := by
  obtain ⟨h1, _, h3, h4⟩ := Query_of_ok gh Do resp hdo
  have hev : (Query gh Do).2.1 = [] := by
    cases hu : (updateState gh resp.Hdr).2 with
    | some err => exact Query_events_of_err gh Do err (by rw [h3, hu])
    | none => rw [(h4 hu).2, hnil]; rfl
  exact ⟨hev, Query_Last_of_nil gh Do hev, h3, by rw [h1, updateState_Etag_eq]⟩

/-- Witness for C6: a body that is not JSON, with and without an `Etag`
header. -/
theorem Query_undecodable_body_witness :
    ((Query pollerSample (respondWith [("Etag", ["v2"])] malformedBody)).2.1 = [] ∧
      (Query pollerSample (respondWith [("Etag", ["v2"])] malformedBody)).1.Last
        = pollerSample.Last) ∧
    (Query pollerSample (respondWith [] malformedBody)).1.Etag = some "abc" :=
  ⟨⟨(Query_undecodable_body pollerSample (respondWith [("Etag", ["v2"])] malformedBody)
        { StatusCode := 200, Hdr := [("Etag", ["v2"])], Body := malformedBody } rfl rfl rfl).1,
    (Query_undecodable_body pollerSample (respondWith [("Etag", ["v2"])] malformedBody)
        { StatusCode := 200, Hdr := [("Etag", ["v2"])], Body := malformedBody } rfl rfl rfl).2.1⟩,
   (Query_undecodable_body pollerSample (respondWith [] malformedBody)
        { StatusCode := 200, Hdr := [], Body := malformedBody } rfl rfl rfl).2.2.2⟩

/-- C7: for every state and every response whose first `X-Poll-Interval`
value is rejected by `strconv.Atoi`, `updateState` fails, `Query` returns an
error, the interval and the watermark keep their values, and no envelope is
emitted, whatever the body holds. -/
theorem Query_unparseable_interval (gh : github) (Do : Request → Except String Response)
    (resp : Response) (s : String) (rest : List String)
    (hdo : Do (createRequest gh) = .ok resp)
    (hh : resp.Hdr.lookup "X-Poll-Interval" = some (s :: rest))
    (hp : (Atoi s).toOption = none) :
    (updateState gh resp.Hdr).2.isSome = true ∧
    (Query gh Do).2.2.isSome = true ∧
    (Query gh Do).1.Interval = gh.Interval ∧
    (Query gh Do).1.Last = gh.Last ∧
    (Query gh Do).2.1 = [] := by
  obtain ⟨_, h2, h3, _⟩ := Query_of_ok gh Do resp hdo
  have hint : intervalHint resp.Hdr = none := by
    unfold intervalHint
    rw [hh]
    exact hp
  have hu : (updateState gh resp.Hdr).2.isSome = true := by
    rw [updateState_err_eq, hh]
    cases ha : Atoi s with
    | error err => simp [ha]
    | ok n => rw [ha] at hp; cases hp
  have hq : (Query gh Do).2.2.isSome = true := by rw [h3]; exact hu
  obtain ⟨err, herr⟩ := Option.isSome_iff_exists.1 hq
  have hev := Query_events_of_err gh Do err herr
  refine ⟨hu, hq, ?_, Query_Last_of_nil gh Do hev, hev⟩
  rw [h2, updateState_Interval_eq, hint]

/-- Witness for C7: the header value `abc`, in front of a body that holds the
batch of the worked example. -/
theorem Query_unparseable_interval_witness :
    (Query pollerAt2 (respondWith [("X-Poll-Interval", ["abc"])]
        { allEvents := batch5342, decodeErr := none })).2.2.isSome = true ∧
    (Query pollerAt2 (respondWith [("X-Poll-Interval", ["abc"])]
        { allEvents := batch5342, decodeErr := none })).1.Interval = pollerAt2.Interval ∧
    (Query pollerAt2 (respondWith [("X-Poll-Interval", ["abc"])]
        { allEvents := batch5342, decodeErr := none })).1.Last = pollerAt2.Last ∧
    (Query pollerAt2 (respondWith [("X-Poll-Interval", ["abc"])]
        { allEvents := batch5342, decodeErr := none })).2.1 = [] :=
  (Query_unparseable_interval pollerAt2
    (respondWith [("X-Poll-Interval", ["abc"])] { allEvents := batch5342, decodeErr := none })
    { StatusCode := 200, Hdr := [("X-Poll-Interval", ["abc"])],
      Body := { allEvents := batch5342, decodeErr := none } }
    "abc" [] rfl rfl (by decide)).2

/-- C8, as stated: a not-modified response without a body that carries the
header `Etag: xyz` replaces the stored validator `abc`; the validator is not
left untouched. -/
theorem Query_not_modified_replaces_Etag :
    (Query pollerSample (notModified [("Etag", ["xyz"])])).1.Etag = some "xyz" ∧
    ¬ ((Query pollerSample (notModified [("Etag", ["xyz"])])).2.1 = [] ∧
        (Query pollerSample (notModified [("Etag", ["xyz"])])).1.Last = pollerSample.Last ∧
        (Query pollerSample (notModified [("Etag", ["xyz"])])).1.Etag = pollerSample.Etag) := by
  decide

/-- C8, amended: for every state and every response with status 304 and no
body, `Query` emits zero envelopes and leaves the watermark untouched; the
validator is left untouched when the response has no first `Etag` header value
and is otherwise replaced by that value; the interval is replaced by the
`X-Poll-Interval` hint when one is present and parses as an integer, and is
otherwise kept. -/
theorem Query_not_modified (gh : github) (Do : Request → Except String Response)
    (resp : Response) (hdo : Do (createRequest gh) = .ok resp)
    (_hs : resp.StatusCode = 304) (hb : resp.Body = emptyBody) :
    (Query gh Do).2.1 = [] ∧
    (Query gh Do).1.Last = gh.Last ∧
    (Query gh Do).1.Etag
      = (match resp.Hdr.lookup "Etag" with
          | some (e :: _) => some e
          | _ => gh.Etag) ∧
    (Query gh Do).1.Interval
      = (match intervalHint resp.Hdr with
          | some n => wrapInt64 (n * Second)
          | none => gh.Interval) := by
  obtain ⟨h1, h2, h3, h4⟩ := Query_of_ok gh Do resp hdo
  have hev : (Query gh Do).2.1 = [] := by
    cases hu : (updateState gh resp.Hdr).2 with
    | some err => exact Query_events_of_err gh Do err (by rw [h3, hu])
    | none => rw [(h4 hu).2, hb]; rfl
  exact ⟨hev, Query_Last_of_nil gh Do hev, by rw [h1, updateState_Etag_eq],
    by rw [h2, updateState_Interval_eq]⟩

/-- Witness for C8: a not-modified response that carries only an interval
hint of 120 seconds. -/
theorem Query_not_modified_witness :
    (Query pollerSample (notModified [("X-Poll-Interval", ["120"])])).2.1 = [] ∧
    (Query pollerSample (notModified [("X-Poll-Interval", ["120"])])).1.Last
      = pollerSample.Last ∧
    (Query pollerSample (notModified [("X-Poll-Interval", ["120"])])).1.Etag = some "abc" ∧
    (Query pollerSample (notModified [("X-Poll-Interval", ["120"])])).1.Interval
      = 120 * Second :=
  Query_not_modified pollerSample (notModified [("X-Poll-Interval", ["120"])])
    { StatusCode := 304, Hdr := [("X-Poll-Interval", ["120"])], Body := emptyBody } rfl rfl rfl

/-- C9: for every state and every header set, `updateState` sets the
validator to the first `Etag` header value when there is one and otherwise
keeps the stored validator; so a validator that is set is still set after
`updateState` and after `Query`, whatever the transport answers. -/
theorem updateState_Etag_never_cleared (gh : github) (hdr : Header)
    (Do : Request → Except String Response) :
    (updateState gh hdr).1.Etag
      = (match hdr.lookup "Etag" with
          | some (e :: _) => some e
          | _ => gh.Etag) ∧
    (gh.Etag.isSome = true → (updateState gh hdr).1.Etag.isSome = true) ∧
    (gh.Etag.isSome = true → (Query gh Do).1.Etag.isSome = true) := by
  have key : ∀ h : Header, gh.Etag.isSome = true → (updateState gh h).1.Etag.isSome = true := by
    intro h hs
    rw [updateState_Etag_eq]
    split
    · rfl
    · exact hs
  refine ⟨updateState_Etag_eq gh hdr, key hdr, ?_⟩
  intro hs
  cases hdo : Do (createRequest gh) with
  | error err => rw [Query_of_error gh Do err hdo]; exact hs
  | ok resp => rw [(Query_of_ok gh Do resp hdo).1]; exact key resp.Hdr hs

end github

namespace slack

/-! ## The classifier -/

/-- C10: for every envelope whose type tag is none of the five known tags,
`ParseEvent` returns (it is a total function) the error `unknown event: `
followed by the tag, a nil `Messager`, and the envelope's `Parsed` fields
unchanged, the type tag and the raw payload among them. -/
theorem ParseEvent_unknown (json : Unmarshal) (e : github.Event)
    (h1 : e.Type_ ≠ "PushEvent") (h2 : e.Type_ ≠ "IssueCommentEvent")
    (h3 : e.Type_ ≠ "IssuesEvent") (h4 : e.Type_ ≠ "PullRequestEvent")
    (h5 : e.Type_ ≠ "PullRequestReviewCommentEvent") :
    (ParseEvent json e).2 = some ("unknown event: " ++ e.Type_) ∧
    (ParseEvent json e).1.Parsed = e.toParsed ∧
    (ParseEvent json e).1.Parsed.Type_ = e.Type_ ∧
    (ParseEvent json e).1.Parsed.Payload = e.Payload ∧
    (ParseEvent json e).1.Messager = none := by
  simp [ParseEvent, h1, h2, h3, h4, h5]

/-- Witness for C10: an envelope tagged `WatchEvent`. -/
theorem ParseEvent_unknown_witness :
    (ParseEvent zeroUnmarshal (github.sampleEvent "WatchEvent" 7)).2
      = some "unknown event: WatchEvent" ∧
    (ParseEvent zeroUnmarshal (github.sampleEvent "WatchEvent" 7)).1.Parsed
      = (github.sampleEvent "WatchEvent" 7).toParsed :=
  ⟨(ParseEvent_unknown zeroUnmarshal (github.sampleEvent "WatchEvent" 7)
      (by decide) (by decide) (by decide) (by decide) (by decide)).1,
   (ParseEvent_unknown zeroUnmarshal (github.sampleEvent "WatchEvent" 7)
      (by decide) (by decide) (by decide) (by decide) (by decide)).2.1⟩

end slack

namespace github

/-! ## The checkpoint store: loading -/

/-- C11, as stated: a checkpoint that exists, holds bytes that are not a gob
stream, and cannot be opened makes `LoadState` return no error, although it
exists and cannot be decoded. -/
theorem LoadState_unreadable_no_error :
    lockedFS.files ".state" = some (FileData.raw [1, 2, 3]) ∧
    fileDecodes (FileData.raw [1, 2, 3]) = false ∧
    (LoadState (NewGithub "token" "user") lockedFS ".state").2 = none ∧
    ¬ ((LoadState (NewGithub "token" "user") lockedFS ".state").2.isSome = true ↔
        ((lockedFS.files ".state").isSome = true ∧
          (lockedFS.files ".state").map fileDecodes = some false)) := by
  decide

/-- C11, amended: `LoadState` returns an error if and only if the checkpoint
can be opened (it exists and `os.Open` succeeds) but cannot be decoded; when
the checkpoint does not exist, or cannot be opened, it returns no error; and
whenever it does not decode a checkpoint (the file is missing, cannot be
opened, or does not decode) the poller is left exactly as it was before the
call. -/
theorem LoadState_error_iff (gh : github) (fs : FileSystem) (path : String) :
    ((LoadState gh fs path).2.isSome = true ↔
      ∃ d, fs.canOpen path = true ∧ fs.files path = some d ∧ fileDecodes d = false) ∧
    (fs.files path = none → (LoadState gh fs path).2 = none) ∧
    (fs.canOpen path = false → (LoadState gh fs path).2 = none) ∧
    ((∀ d, fs.canOpen path = true → fs.files path = some d → fileDecodes d = false) →
      (LoadState gh fs path).1 = gh) := by
  unfold LoadState Open
  cases hc : fs.canOpen path with
  | false => simp
  | true =>
    cases hf : fs.files path with
    | none => simp
    | some d =>
      cases d with
      | raw bytes => simp [fileDecodes]
      | gob fields =>
        cases hd : gobDecode fields with
        | error err => simp [fileDecodes, hd, Except.toOption]
        | ok st => simp [fileDecodes, hd, Except.toOption]

/-! ## Deduplication is idempotent -/

theorem emitFrom_of_le (es : List Event) (last : Time)
    (h : ∀ e ∈ es, e.CreatedAt ≤ last) : emitFrom es last = [] ∧ lastFrom es last = last := by
  induction es with
  | nil => simp [emitFrom, lastFrom]
  | cons x es ih =>
    have hx : ¬ After x.CreatedAt last = true := by
      intro ha
      exact absurd ((After_iff _ _).1 ha) (not_lt.2 (h x (List.mem_cons_self x es)))
    simp only [emitFrom, lastFrom, hx]
    exact ih (fun e he => h e (List.mem_cons_of_mem x he))

theorem updateState_err_independent (gh gh2 : github) (hdr : Header) :
    (updateState gh2 hdr).2 = (updateState gh hdr).2 := by
  rw [updateState_err_eq, updateState_err_eq]

/-- C18: for every batch and every starting watermark, after one pass of the
loop of `Query` the watermark is at least every creation time in the batch,
and a second pass over the same batch from that watermark emits nothing and
leaves the watermark where it is; likewise a second `Query` that receives the
same headers and body as the first emits nothing and leaves the watermark
unchanged. -/
theorem queryLoop_idempotent (allEvents : List Event) (last : Time) (gh : github)
    (hdr : Header) (body : Body) :
    (∀ e ∈ allEvents, e.CreatedAt ≤ (queryLoop allEvents last).1) ∧
    queryLoop allEvents (queryLoop allEvents last).1 = ((queryLoop allEvents last).1, []) ∧
    (Query (Query gh (respondWith hdr body)).1 (respondWith hdr body)).2.1 = [] ∧
    (Query (Query gh (respondWith hdr body)).1 (respondWith hdr body)).1.Last
      = (Query gh (respondWith hdr body)).1.Last := by
  have hle : ∀ (l : List Event) (t : Time), ∀ e ∈ l.reverse, e.CreatedAt ≤ lastFrom l.reverse t :=
    fun l t => le_lastFrom_of_mem l.reverse t
  have hev : (Query (Query gh (respondWith hdr body)).1 (respondWith hdr body)).2.1 = [] := by
    obtain ⟨_, _, _, h4⟩ := Query_of_ok gh (respondWith hdr body)
      { StatusCode := 200, Hdr := hdr, Body := body } rfl
    obtain ⟨_, _, k3, k4⟩ := Query_of_ok (Query gh (respondWith hdr body)).1 (respondWith hdr body)
      { StatusCode := 200, Hdr := hdr, Body := body } rfl
    cases hu : (updateState gh hdr).2 with
    | some err =>
      apply Query_events_of_err _ _ err
      rw [k3, updateState_err_independent gh _ hdr, hu]
    | none =>
      have hu2 : (updateState (Query gh (respondWith hdr body)).1 hdr).2 = none := by
        rw [updateState_err_independent gh _ hdr, hu]
      rw [(k4 hu2).2, (h4 hu).1]
      exact (emitFrom_of_le _ _ (hle body.allEvents gh.Last)).1
  refine ⟨?_, ?_, hev, Query_Last_of_nil _ _ hev⟩
  · intro e he
    rw [queryLoop_eq]
    exact hle allEvents last e (List.mem_reverse.2 he)
  · rw [queryLoop_eq, queryLoop_eq]
    obtain ⟨h1, h2⟩ := emitFrom_of_le _ _ (hle allEvents last)
    rw [h1, h2]

end github

namespace strings

/-! ## `Split` and `Join` -/

theorem splitBytes_ne_nil (sep : Char) (l : List Char) : splitBytes sep l ≠ [] := by
  cases l with
  | nil => simp [splitBytes]
  | cons c cs =>
    by_cases h : c = sep <;> simp [splitBytes, h]

theorem joinBytes_cons_head (sep : List Char) (c : Char) (h : List Char)
    (t : List (List Char)) :
    joinBytes sep ((c :: h) :: t) = c :: joinBytes sep (h :: t) := by
  cases t with
  | nil => rfl
  | cons b rest => simp [joinBytes]

theorem joinBytes_splitBytes (sep : Char) (l : List Char) :
    joinBytes [sep] (splitBytes sep l) = l := by
  induction l with
  | nil => rfl
  | cons c cs ih =>
    obtain ⟨h, t, ht⟩ := List.exists_cons_of_ne_nil (splitBytes_ne_nil sep cs)
    rw [ht] at ih
    by_cases hc : c = sep
    · simp [splitBytes, hc, ht, joinBytes, ih]
    · simp only [splitBytes, hc, if_false, ht, List.headD_cons, List.tail_cons]
      rw [joinBytes_cons_head, ih]

theorem Join_data (ls : List String) (sep : String) :
    (Join ls sep).data = joinBytes sep.data (ls.map (fun s => s.data)) := by
  induction ls with
  | nil => rfl
  | cons a rest ih =>
    cases rest with
    | nil => rfl
    | cons b rest =>
      simp only [Join, List.map_cons, joinBytes, String.data_append]
      rw [ih]
      rfl

theorem Join_Split (s : String) (sep : Char) :
    Join (Split s sep) (String.singleton sep) = s := by
  apply String.ext
  rw [Join_data]
  have h1 : (Split s sep).map (fun x => x.data) = splitBytes sep s.data := by
    simp [Split, Function.comp_def]
  rw [h1]
  exact joinBytes_splitBytes sep s.data

theorem Split_length_pos (s : String) (sep : Char) : 0 < (Split s sep).length := by
  have h := splitBytes_ne_nil sep s.data
  unfold Split
  rw [List.length_map]
  exact List.length_pos.2 h

end strings

namespace strings

theorem splitBytes_of_not_mem (sep : Char) (l : List Char) (h : sep ∉ l) :
    splitBytes sep l = [l] := by
  induction l with
  | nil => rfl
  | cons c cs ih =>
    have hc : ¬ c = sep := fun e => h (by rw [e]; exact List.mem_cons_self _ _)
    have hcs : sep ∉ cs := fun m => h (List.mem_cons_of_mem _ m)
    simp [splitBytes, hc, ih hcs]

theorem splitBytes_append_sep (sep : Char) (a b : List Char) (h : sep ∉ a) :
    splitBytes sep (a ++ sep :: b) = a :: splitBytes sep b := by
  induction a with
  | nil => simp [splitBytes]
  | cons c a ih =>
    have hc : ¬ c = sep := fun e => h (by rw [e]; exact List.mem_cons_self _ _)
    have ha : sep ∉ a := fun m => h (List.mem_cons_of_mem _ m)
    simp [splitBytes, hc, ih ha]

theorem not_mem_headD_splitBytes (sep : Char) (l : List Char) :
    sep ∉ (splitBytes sep l).headD [] := by
  induction l with
  | nil => simp [splitBytes]
  | cons c cs ih =>
    by_cases hc : c = sep
    · simp [splitBytes, hc]
    · simp only [splitBytes, hc, if_false, List.headD_cons, List.mem_cons, not_or]
      exact ⟨fun e => hc e.symm, ih⟩

theorem headD_Split_data (s : String) (sep : Char) :
    ((Split s sep).headD "").data = (splitBytes sep s.data).headD [] := by
  unfold Split
  cases splitBytes sep s.data with
  | nil => rfl
  | cons a rest => rfl

theorem Split_Join_three (a b c : String) (sep : Char)
    (ha : sep ∉ a.data) (hb : sep ∉ b.data) (hc : sep ∉ c.data) :
    Split (Join [a, b, c] (String.singleton sep)) sep = [a, b, c] := by
  have hd : (Join [a, b, c] (String.singleton sep)).data
      = a.data ++ sep :: (b.data ++ sep :: c.data) := by
    rw [Join_data]
    simp [joinBytes, String.singleton, String.push]
  unfold Split
  rw [hd, splitBytes_append_sep sep _ _ ha, splitBytes_append_sep sep _ _ hb,
    splitBytes_of_not_mem sep _ hc]
  rfl

theorem take_three_of_cond (ls : List String) :
    (if ls.length ≥ 3 then ls.take 3 else ls) = ls.take (min 3 ls.length) := by
  by_cases h : ls.length ≥ 3
  · rw [if_pos h, Nat.min_eq_left h]
  · rw [if_neg h, Nat.min_eq_right (by omega), List.take_length]

end strings

namespace slack

/-! ## The renderer -/

/-- C12: for every pull request event, `Attachments` returns exactly one block,
marked up in its text, whose text is the three counts, each between asterisks
and followed by its unit word; the unit word of a count is the singular
exactly when that count is 1 and the plural otherwise, whatever the other two
counts are. For the counts 1, 0 and 5 the text is
`*1* commit with *0* additions and *5* deletions`. -/
theorem PullRequestEvent_Attachments_text (e : PullRequestEvent) (p : Parsed)
    (action title url : String) (number : Int) :
    (∃ comT addT delT : String,
      e.Attachments p
        = [{ Text := "*" ++ toString e.PullRequest.Commits ++ "* " ++ comT
              ++ " with *" ++ toString e.PullRequest.Additions ++ "* " ++ addT
              ++ " and *" ++ toString e.PullRequest.Deletions ++ "* " ++ delT,
             MarkdownIn := ["text"] }] ∧
      (e.PullRequest.Commits = 1 ∧ comT = "commit" ∨
        e.PullRequest.Commits ≠ 1 ∧ comT = "commits") ∧
      (e.PullRequest.Additions = 1 ∧ addT = "addition" ∨
        e.PullRequest.Additions ≠ 1 ∧ addT = "additions") ∧
      (e.PullRequest.Deletions = 1 ∧ delT = "deletion" ∨
        e.PullRequest.Deletions ≠ 1 ∧ delT = "deletions")) ∧
    PullRequestEvent.Attachments
        { Action := action, Number := number,
          PullRequest := { Title := title, HtmlUrl := url, Commits := 1, Additions := 0,
                           Deletions := 5 } } p
      = [{ Text := "*1* commit with *0* additions and *5* deletions",
           MarkdownIn := ["text"] }] := by
  refine ⟨⟨if e.PullRequest.Commits = 1 then "commit" else "commits",
    if e.PullRequest.Additions = 1 then "addition" else "additions",
    if e.PullRequest.Deletions = 1 then "deletion" else "deletions", rfl, ?_, ?_, ?_⟩, ?_⟩
  · by_cases h : e.PullRequest.Commits = 1 <;> simp [h]
  · by_cases h : e.PullRequest.Additions = 1 <;> simp [h]
  · by_cases h : e.PullRequest.Deletions = 1 <;> simp [h]
  · rfl

/-- C14: the review comment whose body is the four lines a, b, c, d is rendered
by `PullRequestReviewCommentEvent.Text` with all four lines, whereas
`IssueCommentEvent.Text` renders the same body cut to its first three lines. -/
theorem PullRequestReviewCommentEvent_Text_not_truncated :
    (strings.Split sampleReviewComment.Comment.Body '\n').length = 4 ∧
    sampleReviewComment.Text sampleParsed
      = "*<https://github.com/octocat|octocat> commented on pull request "
        ++ "<https://github.com/octo/repo/pull/12#r1|octo/repo#12>*\n" ++ "a\nb\nc\nd" ∧
    sampleIssueComment.Text sampleParsed
      = "*<https://github.com/octocat|octocat> commented on pull request "
        ++ "<https://github.com/octo/repo/pull/12#r1|octo/repo#12>*\n" ++ "a\nb\nc" := by
  decide

/-- C15: for every issue comment event, `Text` is the headline (the link to
the actor, the words `commented on pull request`, and the reference made of
the repository name, `#` and the issue number, linked to the comment) between
asterisks, a newline, and the first `min 3 n` of the `n` lines of the body
joined with newlines; a body of 3 or fewer lines is reproduced unchanged. -/
theorem IssueCommentEvent_Text_truncates (e : IssueCommentEvent) (p : Parsed) :
    e.Text p
      = "*" ++ UserLink p ++ " commented on pull request "
        ++ SlackLink e.Comment.HtmlUrl (RepoName p ++ "#" ++ toString e.Issue.Number) ++ "*\n"
        ++ strings.Join
            ((strings.Split e.Comment.Body '\n').take
              (min 3 (strings.Split e.Comment.Body '\n').length)) "\n" ∧
    ((strings.Split e.Comment.Body '\n').length ≤ 3 →
      e.Text p
        = "*" ++ UserLink p ++ " commented on pull request "
          ++ SlackLink e.Comment.HtmlUrl (RepoName p ++ "#" ++ toString e.Issue.Number) ++ "*\n"
          ++ e.Comment.Body) := by
  have h1 : e.Text p
      = "*" ++ UserLink p ++ " commented on pull request "
        ++ SlackLink e.Comment.HtmlUrl (RepoName p ++ "#" ++ toString e.Issue.Number) ++ "*\n"
        ++ strings.Join
            ((strings.Split e.Comment.Body '\n').take
              (min 3 (strings.Split e.Comment.Body '\n').length)) "\n" := by
    unfold IssueCommentEvent.Text
    simp only [strings.take_three_of_cond]
  refine ⟨h1, fun hle => ?_⟩
  rw [h1, Nat.min_eq_right hle, List.take_length]
  have hj := strings.Join_Split e.Comment.Body '\n'
  have hs : String.singleton '\n' = "\n" := rfl
  rw [hs] at hj
  rw [hj]

/-- C16: for every issue event, `IssuesEvent.Text` is the text that
`PullRequestEvent.Text` gives for the same actor, action, number, link and
title, with `issue` in place of `pull request`, followed by one more asterisk:
the title is not the end of the text. For the issue titled `Bug` the text ends
in `Bug*`, while the pull request text ends in `Bug`. -/
theorem IssuesEvent_Text_trailing_asterisk (e : IssuesEvent) (p : Parsed) :
    e.Text p
      = ("*" ++ UserLink p ++ " " ++ e.Action ++ " issue "
          ++ SlackLink e.Issue.HtmlUrl (RepoName p ++ "#" ++ toString e.Issue.Number) ++ "*\n"
          ++ e.Issue.Title) ++ "*" ∧
    PullRequestEvent.Text
        { Action := e.Action, Number := e.Issue.Number,
          PullRequest := { Title := e.Issue.Title, HtmlUrl := e.Issue.HtmlUrl, Commits := 0,
                           Additions := 0, Deletions := 0 } } p
      = "*" ++ UserLink p ++ " " ++ e.Action ++ " pull request "
          ++ SlackLink e.Issue.HtmlUrl (RepoName p ++ "#" ++ toString e.Issue.Number) ++ "*\n"
          ++ e.Issue.Title ∧
    sampleIssues.Text sampleParsed
      = "*<https://github.com/octocat|octocat> opened issue "
        ++ "<https://github.com/octo/repo/pull/12|octo/repo#12>*\nBug*" ∧
    samplePullRequest.Text sampleParsed
      = "*<https://github.com/octocat|octocat> opened pull request "
        ++ "<https://github.com/octo/repo/pull/12|octo/repo#12>*\nBug" := by
  refine ⟨rfl, rfl, ?_, ?_⟩ <;> decide

/-- C17: a push payload that the classifier accepts and decodes with a commit
whose identifier is the empty string makes `PushEvent.Attachments` panic on
the slice of the first 7 bytes, and so does an identifier of six bytes. -/
theorem PushEvent_Attachments_short_Sha_panics :
    (ParseEvent unmarshalNoSha (github.sampleEvent "PushEvent" 0)).2 = none ∧
    (ParseEvent unmarshalNoSha (github.sampleEvent "PushEvent" 0)).1.Messager
      = some (Messager.ofPushEvent pushNoSha) ∧
    pushNoSha.Attachments sampleParsed = .error "runtime error: slice bounds out of range" ∧
    Messager.Attachments (Messager.ofPushEvent pushNoSha) sampleParsed
      = .error "runtime error: slice bounds out of range" ∧
    pushShortSha.Attachments sampleParsed
      = .error "runtime error: slice bounds out of range" := by
  refine ⟨?_, ?_, rfl, rfl, rfl⟩ <;> decide

/-! ## The attachment of a push -/

theorem length_mk_take_seven (s : String) (h : 7 ≤ s.length) :
    (String.mk (s.data.take 7)).length = 7 := by
  cases s with
  | mk data =>
    simp only [String.length] at h ⊢
    rw [List.length_take]
    exact Nat.min_eq_left h

theorem commitLine_ok (parsed : Parsed) (c : PushCommit) (h : 7 ≤ c.Sha.length) :
    PushEvent.commitLine parsed c = .ok (commitText parsed c) := by
  simp [PushEvent.commitLine, sliceTo, h, commitText]

theorem commitLine_error (parsed : Parsed) (c : PushCommit) (h : c.Sha.length < 7) :
    PushEvent.commitLine parsed c = .error "runtime error: slice bounds out of range" := by
  have h7 : ¬ 7 ≤ c.Sha.length := by omega
  simp [PushEvent.commitLine, sliceTo, h7]

theorem newline_not_mem_append (a b : String) (ha : '\n' ∉ a.data) (hb : '\n' ∉ b.data) :
    '\n' ∉ (a ++ b).data := by
  rw [String.data_append]
  intro hm
  rcases List.mem_append.1 hm with hm | hm
  · exact ha hm
  · exact hb hm

theorem commitText_no_newline (parsed : Parsed) (c : PushCommit)
    (hr : '\n' ∉ parsed.Repo.Name.data) (hs : '\n' ∉ c.Sha.data) :
    '\n' ∉ (commitText parsed c).data := by
  have hshort : '\n' ∉ (String.mk (c.Sha.data.take 7)).data :=
    fun hm => hs (List.mem_of_mem_take hm)
  have hmsg : '\n' ∉ ((strings.Split c.Message '\n').headD "").data := by
    rw [strings.headD_Split_data]
    exact strings.not_mem_headD_splitBytes '\n' _
  have hbase : '\n' ∉ githubBase.data := by decide
  have l1 : '\n' ∉ ("<" : String).data := by decide
  have l2 : '\n' ∉ ("|" : String).data := by decide
  have l3 : '\n' ∉ (">" : String).data := by decide
  have l4 : '\n' ∉ (" " : String).data := by decide
  have l5 : '\n' ∉ ("/" : String).data := by decide
  have l6 : '\n' ∉ ("/commit/" : String).data := by decide
  unfold commitText SlackLink RepoName
  repeat (first | apply newline_not_mem_append | assumption)

/-- C13, as stated: the attachment text of a push of three commits with full
identifiers has three lines, and each line begins with the link markup
`<https:` of the commit, not with the first 7 characters of the identifier,
which are the label inside the link. -/
theorem PushEvent_Attachments_lines_begin_with_link :
    samplePush.Attachments sampleParsed
      = .ok [{ Text := samplePushText, MarkdownIn := ["text"] }] ∧
    (strings.Split samplePushText '\n').map (fun l => String.mk (l.data.take 7))
      = ["<https:", "<https:", "<https:"] ∧
    ¬ ((strings.Split samplePushText '\n').map (fun l => String.mk (l.data.take 7))
        = ["0123456", "89abcde", "fedcba9"]) := by
  refine ⟨rfl, ?_, ?_⟩ <;> decide

/-- C13, amended: for every push event with 3 commits whose identifiers have
at least 7 bytes each, `Attachments` produces a single block, marked up in its
text, whose text is one line per commit, in the commits' order, joined with
newlines. Each line is the link to the commit labelled with the first 7 bytes
of its identifier (a label of exactly 7 bytes), a space, and the first line of
the commit message; and the text has exactly these 3 lines when neither the
repository name nor an identifier contains a newline. -/
theorem PushEvent_Attachments_three_commits (p : PushEvent) (parsed : Parsed)
    (c1 c2 c3 : PushCommit) (hc : p.Commits = [c1, c2, c3])
    (h1 : 7 ≤ c1.Sha.length) (h2 : 7 ≤ c2.Sha.length) (h3 : 7 ≤ c3.Sha.length) :
    p.Attachments parsed
      = .ok [{ Text := strings.Join
                [commitText parsed c1, commitText parsed c2, commitText parsed c3] "\n",
               MarkdownIn := ["text"] }] ∧
    ((String.mk (c1.Sha.data.take 7)).length = 7 ∧
      (String.mk (c2.Sha.data.take 7)).length = 7 ∧
      (String.mk (c3.Sha.data.take 7)).length = 7) ∧
    ('\n' ∉ ((strings.Split c1.Message '\n').headD "").data ∧
      '\n' ∉ ((strings.Split c2.Message '\n').headD "").data ∧
      '\n' ∉ ((strings.Split c3.Message '\n').headD "").data) ∧
    ('\n' ∉ parsed.Repo.Name.data → '\n' ∉ c1.Sha.data → '\n' ∉ c2.Sha.data →
      '\n' ∉ c3.Sha.data →
      strings.Split
          (strings.Join [commitText parsed c1, commitText parsed c2, commitText parsed c3] "\n")
          '\n'
        = [commitText parsed c1, commitText parsed c2, commitText parsed c3]) := by
  have hmsg : ∀ m : String, '\n' ∉ ((strings.Split m '\n').headD "").data := by
    intro m
    rw [strings.headD_Split_data]
    exact strings.not_mem_headD_splitBytes '\n' _
  refine ⟨?_, ⟨length_mk_take_seven _ h1, length_mk_take_seven _ h2, length_mk_take_seven _ h3⟩,
    ⟨hmsg _, hmsg _, hmsg _⟩, ?_⟩
  · simp [PushEvent.Attachments, hc, PushEvent.commitLines, commitLine_ok parsed c1 h1,
      commitLine_ok parsed c2 h2, commitLine_ok parsed c3 h3]
  · intro hr s1 s2 s3
    have hs : ("\n" : String) = String.singleton '\n' := rfl
    rw [hs]
    exact strings.Split_Join_three _ _ _ '\n' (commitText_no_newline parsed c1 hr s1)
      (commitText_no_newline parsed c2 hr s2) (commitText_no_newline parsed c3 hr s3)

/-- Witness for C13: the push of three commits with full identifiers. -/
theorem PushEvent_Attachments_three_commits_witness :
    samplePush.Attachments sampleParsed
      = .ok [{ Text := samplePushText, MarkdownIn := ["text"] }] ∧
    (strings.Split samplePushText '\n').length = 3 :=
  ⟨(PushEvent_Attachments_three_commits samplePush sampleParsed
      { Sha := "0123456789abcdef0123456789abcdef01234567", Message := "first" }
      { Sha := "89abcdef0123456789abcdef0123456789abcdef", Message := "second\nmore" }
      { Sha := "fedcba9876543210fedcba9876543210fedcba98", Message := "third" }
      rfl (by decide) (by decide) (by decide)).1.trans rfl,
   by decide⟩

end slack
